import Mathlib

/-!
Verification of `az_ssh_wrapper.py`, an argument-translation shim that parses
OpenSSH-style command-line arguments and reassembles them into an `az ssh`
invocation.

Python strings are embedded as `List Char`; argument vectors as `List Str`.
The wrapper calls the CPython standard-library `getopt.getopt`, which is not
part of the repository; its semantics (stop at the first non-option token,
short-option bundling, long-option unique-prefix matching, strict errors) are
embedded below following the reference implementation of the `getopt` module.
-/

set_option maxRecDepth 4000

namespace AzWrap

/-- Python strings are modelled as lists of characters. -/
abbrev Str := List Char

/-- Python's `s.startswith(p)`. -/
def pyStartsWith (s p : Str) : Bool := p.isPrefixOf s

/-- Model of `getopt.short_has_arg`: scan the short-option string for the first
occurrence of the flag character `c` (which must not be `:`); return
`some true` when the next character is `:` (the flag takes a value),
`some false` when not, and `none` when the flag is not in the string
(a `GetoptError`). -/
def short_has_arg (c : Char) : Str → Option Bool
  | [] => none
  | x :: rest => if c = x ∧ x ≠ ':' then some (rest.head? == some ':') else short_has_arg c rest

/-- Model of `getopt.do_shorts` without the trailing-argument pull: scan the bundled
short-option characters of one `-xyz` token.  Returns the options parsed from
this token, together with `some name` when the last character takes a value
that must be pulled from the next argument (Python's
`if optstring == canonical empty: optstring, args = args[0], args[1:]`). -/
def do_shorts_scan (optstring : Str) (shortopts : Str) :
    Except Str (List (Str × Str) × Option Str) :=
  match optstring with
  | [] => .ok ([], none)
  | c :: rest =>
    match short_has_arg c shortopts with
    | none => .error ("option -".toList ++ [c] ++ " not recognized".toList)
    | some true =>
      if rest = [] then .ok ([], some ['-', c])
      else .ok ([(['-', c], rest)], none)
    | some false =>
      match do_shorts_scan rest shortopts with
      | .error e => .error e
      | .ok (parsed, pending) => .ok ((['-', c], ([] : Str)) :: parsed, pending)

/-- Split a long-option token body at its first `=`, as Python's
`opt[:i], opt[i+1:]` after `opt.index('=')`; no `=` gives `none`. -/
def splitAtEq : Str → Str × Option Str
  | [] => ([], none)
  | c :: rest =>
    if c = '=' then ([], some rest)
    else
      match splitAtEq rest with
      | (pre, arg?) => (c :: pre, arg?)

/-- Model of `getopt.long_has_args`: resolve a (possibly abbreviated) long option name
against the declared long options; a trailing `=` in the declaration means the
option takes a value.  Errors: unknown name, or an ambiguous proper prefix. -/
def long_has_args (opt : Str) (longopts : List Str) : Except Str (Bool × Str) :=
  let possibilities := longopts.filter (fun o => pyStartsWith o opt)
  if possibilities = [] then .error ("option --".toList ++ opt ++ " not recognized".toList)
  else if opt ∈ possibilities then .ok (false, opt)
  else if (opt ++ ['=']) ∈ possibilities then .ok (true, opt)
  else if 1 < possibilities.length then
    .error ("option --".toList ++ opt ++ " not a unique prefix".toList)
  else
    let unique_match := possibilities.headD []
    if unique_match.getLast? == some '=' then .ok (true, unique_match.dropLast)
    else .ok (false, unique_match)

/-- The outcome of handling one option token: either a list of parsed
options, or a list of parsed options plus the name of a final value-bearing
option whose value must be pulled from the next argument. -/
inductive TokenRes where
  | done (parsed : List (Str × Str))
  | needsValue (parsed : List (Str × Str)) (name : Str)
deriving DecidableEq

/-- Handle one option token (already known to start with `-`, not to be the
bare `-` or `--`): the `do_longs` path for `--...` tokens (resolve the name,
reject a forbidden inline value, accept an inline `=`-value) and the
`do_shorts` path otherwise, deferring any pull of a value from the next
argument to the caller's loop. -/
def classify_token (shortopts : Str) (longopts : List Str) (a : Str) :
    Except Str TokenRes :=
  if pyStartsWith a ['-', '-'] then
    match splitAtEq (a.drop 2) with
    | (name0, inlineArg?) =>
      match long_has_args name0 longopts with
      | .error e => .error e
      | .ok (has_arg, opt) =>
        if has_arg then
          match inlineArg? with
          | some optarg => .ok (.done [(['-', '-'] ++ opt, optarg)])
          | none => .ok (.needsValue [] (['-', '-'] ++ opt))
        else
          match inlineArg? with
          | some _ => .error ("option --".toList ++ opt ++ " must not have an argument".toList)
          | none => .ok (.done [(['-', '-'] ++ opt, ([] : Str))])
  else
    match do_shorts_scan (a.drop 1) shortopts with
    | .error e => .error e
    | .ok (parsed, pending) =>
      match pending with
      | none => .ok (.done parsed)
      | some name => .ok (.needsValue parsed name)

/-- The main loop of `getopt.getopt`: consume leading option tokens
(`while args and args[0].startswith('-') and args[0] != '-'`), handling each
with `classify_token` and pulling a required value from the next argument
when needed; a lone `--` is swallowed and stops parsing; the first non-option
token stops parsing and stays in the positional-argument list. -/
def getopt_go (shortopts : Str) (longopts : List Str) (opts : List (Str × Str)) :
    List Str → Except Str (List (Str × Str) × List Str)
  | [] => .ok (opts, [])
  | a :: rest =>
    if ¬ pyStartsWith a ['-'] = true ∨ a = ['-'] then .ok (opts, a :: rest)
    else if a = ['-', '-'] then .ok (opts, rest)
    else
      match classify_token shortopts longopts a with
      | .error e => .error e
      | .ok (.done parsed) => getopt_go shortopts longopts (opts ++ parsed) rest
      | .ok (.needsValue parsed name) =>
        match rest with
        | [] => .error ("option ".toList ++ name ++ " requires argument".toList)
        | v :: rest' => getopt_go shortopts longopts (opts ++ parsed ++ [(name, v)]) rest'

/-- Model of `getopt.getopt(args, shortopts, longopts)`. -/
def getopt (args : List Str) (shortopts : Str) (longopts : List Str) :
    Except Str (List (Str × Str) × List Str) :=
  getopt_go shortopts longopts [] args

/-- Source line 63: the short-option grammar string of `main`. -/
def options : Str := "46AaCfGgKkMNnqsTtVvXxYyB:b:c:D:E:e:f:I:i:J:L:l:m:O:o:p:Q:R:S:W:w:".toList

/-- Source line 64: the long-option grammar of `main`. -/
def long_options : List Str :=
  ["arc".toList, "subscription=".toList, "resource-group=".toList, "local-user=".toList]

/-- Source lines 54-59, `opt_filter`: keep an option unless its name is `-o`
and its value starts with the literal prefix `Control`. -/
def opt_filter (opt : Str × Str) : Bool :=
  ! (opt.1 == "-o".toList && pyStartsWith opt.2 "Control".toList)

/-- The local state accumulated by `main`'s loop over the parsed options
(source lines 78-94). -/
structure ParseState where
  arc_mode : Bool
  subscription : Option Str
  resource_group : Option Str
  local_user : Option Str
  filtered_opts : List (Str × Str)
deriving DecidableEq

/-- Source lines 78-82: the initial state of `main`'s option loop. -/
def initState : ParseState := ⟨false, none, none, none, []⟩

/-- Source lines 84-94: the `for o, a in opts` loop of `main`, consuming the
four extension options into the state and appending every other option to
`filtered_opts`. -/
def processOpts : List (Str × Str) → ParseState → ParseState
  | [], st => st
  | (o, a) :: rest, st =>
    if o = "--arc".toList then
      processOpts rest ⟨true, st.subscription, st.resource_group, st.local_user, st.filtered_opts⟩
    else if o = "--subscription".toList then
      processOpts rest ⟨st.arc_mode, some a, st.resource_group, st.local_user, st.filtered_opts⟩
    else if o = "--resource-group".toList then
      processOpts rest ⟨st.arc_mode, st.subscription, some a, st.local_user, st.filtered_opts⟩
    else if o = "--local-user".toList then
      processOpts rest ⟨st.arc_mode, st.subscription, st.resource_group, some a, st.filtered_opts⟩
    else
      processOpts rest
        ⟨st.arc_mode, st.subscription, st.resource_group, st.local_user,
          st.filtered_opts ++ [(o, a)]⟩

/-- Python truthiness of an option-or-string value: `None` and the empty
string are falsy. -/
def pyTruthy : Option Str → Bool
  | none => false
  | some s => !(s == [])

/-- Source lines 98-101: `filter(lambda o: o, opt)` over the pair — emit the
name and the value of one surviving option, each only when non-empty. -/
def flattenOpt (opt : Str × Str) : List Str :=
  (if opt.1 = [] then [] else [opt.1]) ++ (if opt.2 = [] then [] else [opt.2])

/-- Source lines 96-101: build `ssh_opts` by flattening every option of
`filtered_opts` that survives `opt_filter`, in order. -/
def build_ssh_opts (filtered_opts : List (Str × Str)) : List Str :=
  (filtered_opts.filter opt_filter).flatMap flattenOpt

/-- Source lines 74-76: `shutil.which("az")` (modelled as a parameter, since
it is an external collaborator) formatted through `f'"{az_path}"'`; a missing
executable (`None`) prints as the literal `None` inside the quotes. -/
def az_path_str (az_which : Option Str) : Str :=
  '"' :: ((match az_which with | some p => p | none => "None".toList) ++ ['"'])

/-- Source lines 103-114: the part of `exec_args` built before the separator
decision — target path, subcommand, the Azure Arc block when `arc_mode` is
set (mode literal, then each extension option whose stored value is truthy,
then the destination-name pair), or just the destination-name pair. -/
def plan_head (az_path : Str) (st : ParseState) (destination : Str) : List Str :=
  [az_path, "ssh".toList]
    ++ (if st.arc_mode then
          "arc".toList ::
            ((if pyTruthy st.subscription then
                ["--subscription".toList, st.subscription.getD []] else [])
              ++ (if pyTruthy st.resource_group then
                    ["--resource-group".toList, st.resource_group.getD []] else [])
              ++ (if pyTruthy st.local_user then
                    ["--local-user".toList, st.local_user.getD []] else [])
              ++ ["--name".toList, destination])
        else ["--name".toList, destination])

/-- Source lines 103-117: assemble `exec_args` from the loop state, the
destination, and the trailing positional arguments; lines 116-117 append the
separator, the flattened surviving options, and the trailing positionals
whenever either is non-empty. -/
def build_exec_args (az_path : Str) (st : ParseState) (destination : Str)
    (args : List Str) : List Str :=
  let ssh_opts := build_ssh_opts st.filtered_opts
  plan_head az_path st destination
    ++ (if ssh_opts ≠ [] ∨ args ≠ [] then "--".toList :: (ssh_opts ++ args) else [])

/-- The four long-option names consumed internally by `main`'s loop
(source lines 85-92); every other parsed option is appended to
`filtered_opts`. -/
def consumed_names : List Str :=
  ["--arc".toList, "--subscription".toList, "--resource-group".toList, "--local-user".toList]

/-- The three value-bearing extension options that are meaningful only in
Azure Arc mode. -/
def ext_value_names : List Str :=
  ["--subscription".toList, "--resource-group".toList, "--local-user".toList]

/-- The options of a parsed list that `main`'s loop forwards (appends to
`filtered_opts`): those whose name is none of the four extension names. -/
def forwarded_opts (opts : List (Str × Str)) : List (Str × Str) :=
  opts.filter (fun o => decide (o.1 ∉ consumed_names))

/-- Left-biased choice on optional values, mirroring how a later assignment
in `main`'s loop overrides an earlier one. -/
def opt_or (a b : Option Str) : Option Str :=
  match a with
  | some v => some v
  | none => b

/-- The value of the last occurrence of option `name` in a parsed option
list, if any — the value `main`'s loop leaves in its state variable. -/
def last_value (name : Str) : List (Str × Str) → Option Str
  | [] => none
  | (o, a) :: rest => opt_or (last_value name rest) (if o = name then some a else none)

/-- The no-value short flags of the grammar string `options`
(source line 63). -/
def no_value_flags : Str := "46AaCfGgKkMNnqsTtVvXxYy".toList

/-- The observable outcome of one run of the program: either a usage error
(Python prints the error and the help text to standard output and calls
`sys.exit(2)`), or a replacement-exec of file `file` with argument vector
`exec_args` (`os.execvp`), which never returns. -/
inductive Outcome where
  | usage (exitCode : Nat)
  | exec (file : Str) (exec_args : List Str)
deriving DecidableEq, Repr

/-- Source lines 62-119, `main`: parse `sys.argv[1:]` with `getopt`, pop the
destination (an empty positional list raises `IndexError`), run the option
loop, and exec `az` with the assembled arguments.  Both `GetoptError` and
`IndexError` are caught and produce exit status 2. -/
def run_main (az_which : Option Str) (argv : List Str) : Outcome :=
  match getopt argv options long_options with
  | .error _ => .usage 2
  | .ok (opts, args) =>
    match args with
    | [] => .usage 2
    | destination :: args =>
      .exec "az".toList
        (build_exec_args (az_path_str az_which) (processOpts opts initState) destination args)

/-!  ## Helper lemmas about the option loop -/

/-- Lemma: `main`'s loop appends exactly the non-extension options, in order, to
`filtered_opts`. -/
lemma processOpts_filtered (opts : List (Str × Str)) (st : ParseState) :
    (processOpts opts st).filtered_opts = st.filtered_opts ++ forwarded_opts opts := by
  induction opts generalizing st with
  | nil => simp [processOpts, forwarded_opts]
  | cons head rest ih =>
    obtain ⟨o, a⟩ := head
    simp only [processOpts]
    split_ifs with h1 h2 h3 h4
    · subst h1; rw [ih]; simp [forwarded_opts, List.filter_cons, consumed_names]
    · subst h2; rw [ih]; simp [forwarded_opts, List.filter_cons, consumed_names]
    · subst h3; rw [ih]; simp [forwarded_opts, List.filter_cons, consumed_names]
    · subst h4; rw [ih]; simp [forwarded_opts, List.filter_cons, consumed_names]
    · rw [ih]
      have hcond : o ∉ consumed_names := by
        simp only [consumed_names, List.mem_cons, List.not_mem_nil, or_false, not_or]
        exact ⟨h1, h2, h3, h4⟩
      simp only [forwarded_opts, List.filter_cons]
      rw [if_pos (decide_eq_true hcond)]
      simp [List.append_assoc]

/-- Lemma: `arc_mode` after the loop is set exactly when it was set before or some
parsed option is named `--arc`. -/
lemma processOpts_arc (opts : List (Str × Str)) (st : ParseState) :
    (processOpts opts st).arc_mode = (st.arc_mode || opts.any fun o => o.1 == "--arc".toList) := by
  induction opts generalizing st with
  | nil => simp [processOpts]
  | cons head rest ih =>
    obtain ⟨o, a⟩ := head
    simp only [processOpts]
    split_ifs with h1 h2 h3 h4
    · subst h1; rw [ih]; simp
    all_goals
      rw [ih]
      simp only [List.any_cons]
      rw [beq_eq_false_iff_ne.mpr (show o ≠ "--arc".toList from h1), Bool.false_or]

lemma opt_or_assoc (a b c : Option Str) : opt_or (opt_or a b) c = opt_or a (opt_or b c) := by
  cases a <;> rfl

lemma opt_or_none (a : Option Str) : opt_or a none = a := by
  cases a <;> rfl

/-- The `subscription` state variable after the loop holds the value of the
last `--subscription` option, falling back to its previous content. -/
lemma processOpts_subscription (opts : List (Str × Str)) (st : ParseState) :
    (processOpts opts st).subscription =
      opt_or (last_value "--subscription".toList opts) st.subscription := by
  induction opts generalizing st with
  | nil => rfl
  | cons head rest ih =>
    obtain ⟨o, a⟩ := head
    simp only [processOpts, last_value]
    rw [opt_or_assoc]
    by_cases h1 : o = "--arc".toList
    · rw [if_pos h1, ih]
      subst h1
      rw [if_neg (by decide)]
      rfl
    · rw [if_neg h1]
      by_cases h2 : o = "--subscription".toList
      · rw [if_pos h2, ih]
        subst h2
        rw [if_pos rfl]
        rfl
      · rw [if_neg h2]
        by_cases h3 : o = "--resource-group".toList
        · rw [if_pos h3, ih, if_neg h2]
          rfl
        · rw [if_neg h3]
          by_cases h4 : o = "--local-user".toList
          · rw [if_pos h4, ih, if_neg h2]
            rfl
          · rw [if_neg h4, ih, if_neg h2]
            rfl

/-- The `resource_group` state variable after the loop holds the value of
the last `--resource-group` option, falling back to its previous content. -/
lemma processOpts_resource_group (opts : List (Str × Str)) (st : ParseState) :
    (processOpts opts st).resource_group =
      opt_or (last_value "--resource-group".toList opts) st.resource_group := by
  induction opts generalizing st with
  | nil => rfl
  | cons head rest ih =>
    obtain ⟨o, a⟩ := head
    simp only [processOpts, last_value]
    rw [opt_or_assoc]
    by_cases h1 : o = "--arc".toList
    · rw [if_pos h1, ih]
      subst h1
      rw [if_neg (by decide)]
      rfl
    · rw [if_neg h1]
      by_cases h2 : o = "--subscription".toList
      · rw [if_pos h2, ih]
        subst h2
        rw [if_neg (by decide)]
        rfl
      · rw [if_neg h2]
        by_cases h3 : o = "--resource-group".toList
        · rw [if_pos h3, ih]
          subst h3
          rw [if_pos rfl]
          rfl
        · rw [if_neg h3]
          by_cases h4 : o = "--local-user".toList
          · rw [if_pos h4, ih, if_neg h3]
            rfl
          · rw [if_neg h4, ih, if_neg h3]
            rfl

/-- The `local_user` state variable after the loop holds the value of the
last `--local-user` option, falling back to its previous content. -/
lemma processOpts_local_user (opts : List (Str × Str)) (st : ParseState) :
    (processOpts opts st).local_user =
      opt_or (last_value "--local-user".toList opts) st.local_user := by
  induction opts generalizing st with
  | nil => rfl
  | cons head rest ih =>
    obtain ⟨o, a⟩ := head
    simp only [processOpts, last_value]
    rw [opt_or_assoc]
    by_cases h1 : o = "--arc".toList
    · rw [if_pos h1, ih]
      subst h1
      rw [if_neg (by decide)]
      rfl
    · rw [if_neg h1]
      by_cases h2 : o = "--subscription".toList
      · rw [if_pos h2, ih]
        subst h2
        rw [if_neg (by decide)]
        rfl
      · rw [if_neg h2]
        by_cases h3 : o = "--resource-group".toList
        · rw [if_pos h3, ih]
          subst h3
          rw [if_neg (by decide)]
          rfl
        · rw [if_neg h3]
          by_cases h4 : o = "--local-user".toList
          · rw [if_pos h4, ih]
            subst h4
            rw [if_pos rfl]
            rfl
          · rw [if_neg h4, ih, if_neg h4]
            rfl

/-- A parsed list with no `--arc` pair leaves `arc_mode` clear. -/
lemma any_arc_false (opts : List (Str × Str)) (h : "--arc".toList ∉ opts.map Prod.fst) :
    (opts.any fun o => o.1 == "--arc".toList) = false := by
  induction opts with
  | nil => rfl
  | cons head rest ih =>
    rw [List.map_cons] at h
    rw [List.any_cons]
    have h1 : (head.1 == "--arc".toList) = false := by
      rw [beq_eq_false_iff_ne]
      intro he
      exact h (he ▸ List.mem_cons_self _ _)
    rw [h1, ih fun hm => h (List.mem_cons_of_mem _ hm)]
    rfl

/-- Every character of `no_value_flags` is a recognized no-value flag of the
grammar string. -/
lemma noval_short (c : Char) (hc : c ∈ no_value_flags) :
    short_has_arg c options = some false := by
  have hall : ∀ x ∈ no_value_flags, short_has_arg x options = some false := by decide
  exact hall c hc

/-- No no-value flag character is the dash itself. -/
lemma noval_ne_dash (c : Char) (hc : c ∈ no_value_flags) : ('-' == c) = false := by
  have hall : ∀ x ∈ no_value_flags, ('-' == x) = false := by decide
  exact hall c hc

/-- Scanning a single no-value flag character yields one valueless option. -/
lemma scan_single (c : Char) (hc : c ∈ no_value_flags) :
    do_shorts_scan [c] options = .ok ([(['-', c], ([] : Str))], none) := by
  have h := noval_short c hc
  simp only [do_shorts_scan, h]

/-- A `-c` token with a no-value flag character is classified as one parsed
option with no pending value. -/
lemma classify_noval (c : Char) (hc : c ∈ no_value_flags) :
    classify_token options long_options ['-', c] = .ok (.done [(['-', c], ([] : Str))]) := by
  have hp : pyStartsWith ['-', c] ['-', '-'] = false := by
    rw [show pyStartsWith ['-', c] ['-', '-'] = (('-' == c) && true) from rfl,
      noval_ne_dash c hc]
    rfl
  unfold classify_token
  rw [if_neg (by rw [hp]; exact Bool.false_ne_true)]
  simp only [List.drop_succ_cons, List.drop_zero]
  rw [scan_single c hc]

/-- The `getopt` loop over a run of single no-value flag tokens parses each
into one valueless option, in order, and continues with the remaining
arguments unchanged. -/
lemma flags_loop (cs : List Char) : ∀ (opts : List (Str × Str)) (tail : List Str),
    (∀ c ∈ cs, c ∈ no_value_flags) →
    getopt_go options long_options opts ((cs.map fun c => ['-', c]) ++ tail) =
      getopt_go options long_options (opts ++ cs.map fun c => (['-', c], ([] : Str))) tail := by
  induction cs with
  | nil => intro opts tail _; simp
  | cons c cs' ih =>
    intro opts tail hc
    have hcm : c ∈ no_value_flags := hc c (List.mem_cons_self _ _)
    rw [List.map_cons, List.cons_append]
    simp only [getopt_go]
    have c1 : ¬(¬ pyStartsWith ['-', c] ['-'] = true ∨ (['-', c] : Str) = ['-']) := by
      rintro (h | h)
      · exact h rfl
      · exact absurd (List.cons.inj h).2 (List.cons_ne_nil c [])
    rw [if_neg c1]
    have c2 : ¬((['-', c] : Str) = ['-', '-']) := by
      intro h
      have h2 : c = '-' := (List.cons.inj (List.cons.inj h).2).1
      exact absurd (h2 ▸ hcm) (by decide)
    rw [if_neg c2]
    rw [classify_noval c hcm]
    show getopt_go options long_options (opts ++ [(['-', c], ([] : Str))])
        ((cs'.map fun x => ['-', x]) ++ tail) = _
    rw [ih (opts ++ [(['-', c], ([] : Str))]) tail fun x hx => hc x (List.mem_cons_of_mem _ hx)]
    rw [List.map_cons]
    simp [List.append_assoc]

/-- The `getopt` loop returns immediately on a leading non-option token. -/
lemma getopt_go_stop (opts : List (Str × Str)) (dest : Str) (tail : List Str)
    (hd : ¬ pyStartsWith dest ['-'] = true ∨ dest = ['-']) :
    getopt_go options long_options opts (dest :: tail) = .ok (opts, dest :: tail) := by
  simp only [getopt_go]
  rw [if_pos hd]

/-- A parsed list containing no extension names passes through `main`'s loop
untouched except for being appended to `filtered_opts`. -/
lemma processOpts_forward_only (l : List (Str × Str)) (st : ParseState)
    (hl : ∀ o ∈ l, o.1 ∉ consumed_names) :
    processOpts l st = ⟨st.arc_mode, st.subscription, st.resource_group, st.local_user,
      st.filtered_opts ++ l⟩ := by
  induction l generalizing st with
  | nil => cases st; simp [processOpts]
  | cons head rest ih =>
    obtain ⟨o, a⟩ := head
    have hm : o ∉ consumed_names := hl (o, a) (List.mem_cons_self _ _)
    simp only [processOpts]
    rw [if_neg fun h => hm (by rw [h]; decide)]
    rw [if_neg fun h => hm (by rw [h]; decide)]
    rw [if_neg fun h => hm (by rw [h]; decide)]
    rw [if_neg fun h => hm (by rw [h]; decide)]
    rw [ih _ fun x hx => hl x (List.mem_cons_of_mem _ hx)]
    simp [List.append_assoc]

/-- An option with an empty value always survives the Control filter: the
prefix test on the empty string is false. -/
lemma optFilter_empty_value (n : Str) : opt_filter (n, []) = true := by
  unfold opt_filter pyStartsWith
  rw [show (List.isPrefixOf "Control".toList ([] : Str)) = false from rfl, Bool.and_false]
  rfl

/-- Flattening a run of parsed valueless short options yields exactly one
token per option. -/
lemma build_ssh_shorts (cs : List Char) :
    build_ssh_opts (cs.map fun c => (['-', c], ([] : Str))) = cs.map fun c => ['-', c] := by
  induction cs with
  | nil => rfl
  | cons c cs' ih =>
    unfold build_ssh_opts at ih ⊢
    rw [List.map_cons, List.filter_cons, if_pos (optFilter_empty_value ['-', c]),
      List.flatMap_cons, ih]
    rfl

/-!  ## Claim theorems -/

/-- C1: a parsed forwarded option survives the filtering step (and thus
reaches the `ssh_opts` portion of the final `InvocationPlan`, which
`build_ssh_opts` assembles from exactly the survivors) if and only if it is
not the case that its name is `-o` and its value starts with the literal,
case-sensitive, start-anchored prefix `Control`; every other option —
including values containing `Control` only as a non-prefix substring, or a
differently-cased prefix — is retained. -/
theorem C1_control_filter (filtered_opts : List (Str × Str)) (opt : Str × Str) :
    opt ∈ filtered_opts.filter opt_filter ↔
      opt ∈ filtered_opts ∧
        ¬(opt.1 = "-o".toList ∧ pyStartsWith opt.2 "Control".toList = true) := by
  rw [List.mem_filter]
  refine and_congr_right fun _ => ?_
  unfold opt_filter
  rcases h1 : (opt.1 == "-o".toList) with _ | _ <;>
    rcases h2 : pyStartsWith opt.2 "Control".toList with _ | _ <;>
      simp_all

/-- C1 witness: the `-o ControlMaster=auto` option is dropped while a
differently-cased `-o controlmaster=auto` and an `-x Control` are kept. -/
theorem C1_witness :
    ("-o".toList, "controlmaster=auto".toList) ∈
      ([("-o".toList, "ControlMaster=auto".toList),
        ("-o".toList, "controlmaster=auto".toList),
        ("-x".toList, "Control".toList)] : List (Str × Str)).filter opt_filter ∧
    ("-x".toList, "Control".toList) ∈
      ([("-o".toList, "ControlMaster=auto".toList),
        ("-o".toList, "controlmaster=auto".toList),
        ("-x".toList, "Control".toList)] : List (Str × Str)).filter opt_filter ∧
    ("-o".toList, "ControlMaster=auto".toList) ∉
      ([("-o".toList, "ControlMaster=auto".toList),
        ("-o".toList, "controlmaster=auto".toList),
        ("-x".toList, "Control".toList)] : List (Str × Str)).filter opt_filter :=
  ⟨(C1_control_filter _ _).mpr (by decide),
   (C1_control_filter _ _).mpr (by decide),
   fun h => absurd ((C1_control_filter _ _).mp h) (by decide)⟩

/-- C2 counterexample: on input `["-t", "-o", "ControlMaster=auto", "host1"]`
the tokens after the subcommand are `["--name", "host1", "--", "-t"]`, not
`["--name", "host1", "--", "t"]` as the claim states: the surviving no-value
flag keeps its leading dash when flattened (`filter(lambda o: o, opt)` keeps
the truthy element `'-t'` unchanged). -/
theorem C2_cex :
    run_main (some "az".toList)
        ["-t".toList, "-o".toList, "ControlMaster=auto".toList, "host1".toList] =
      .exec "az".toList
        ["\"az\"".toList, "ssh".toList, "--name".toList, "host1".toList,
          "--".toList, "-t".toList] ∧
    ("-t".toList : Str) ≠ "t".toList :=
  ⟨rfl, by decide⟩

/-- C2 amended: for the input `["-t", "-o", "ControlMaster=auto", "host1"]`
the plan tokens after the subcommand are exactly
`["--name", "host1", "--", "-t"]`: the Control option is dropped and the
no-value flag `-t` flattens to the single token `"-t"` (keeping its dash). -/
theorem C2_amended :
    run_main (some "az".toList)
        ["-t".toList, "-o".toList, "ControlMaster=auto".toList, "host1".toList] =
      .exec "az".toList
        ["\"az\"".toList, "ssh".toList, "--name".toList, "host1".toList,
          "--".toList, "-t".toList] :=
  rfl

/-- C3 counterexample: the valid vector `["-t", "host1"]` consists only of a
no-value short flag and a destination, yet its plan contains both the
separator token `--` and the forwarded-option token `-t` — contradicting the
claim that such plans contain no separator and no forwarded-option tokens
(the spec's own end-to-end example 2 already contradicts this property). -/
theorem C3_cex :
    run_main (some "az".toList) ["-t".toList, "host1".toList] =
      .exec "az".toList
        ["\"az\"".toList, "ssh".toList, "--name".toList, "host1".toList,
          "--".toList, "-t".toList] ∧
    "--".toList ∈
      ["\"az\"".toList, "ssh".toList, "--name".toList, "host1".toList,
        "--".toList, "-t".toList] ∧
    "-t".toList ∈
      ["\"az\"".toList, "ssh".toList, "--name".toList, "host1".toList,
        "--".toList, "-t".toList] :=
  ⟨rfl, by decide, by decide⟩

/-- C3 amended: for every valid vector of single no-value short flags
followed by one destination, the plan is the target path, the subcommand,
`--name` with the destination, and — when at least one flag was supplied —
the separator followed by exactly one forwarded token per flag, in input
order; with no flags there is no separator and no forwarded token. -/
theorem C3_amended (az_which : Option Str) (flags : List Char) (dest : Str)
    (hf : ∀ c ∈ flags, c ∈ no_value_flags)
    (hd : ¬ pyStartsWith dest ['-'] = true ∨ dest = ['-']) :
    run_main az_which ((flags.map fun c => ['-', c]) ++ [dest]) =
      .exec "az".toList
        ([az_path_str az_which, "ssh".toList, "--name".toList, dest]
          ++ (if flags = [] then []
              else "--".toList :: flags.map fun c => ['-', c])) := by
  have hg : getopt ((flags.map fun c => ['-', c]) ++ [dest]) options long_options =
      .ok (flags.map fun c => (['-', c], ([] : Str)), [dest]) := by
    show getopt_go options long_options [] _ = _
    rw [flags_loop flags [] [dest] hf, getopt_go_stop _ _ _ hd, List.nil_append]
  have hnc : ∀ o ∈ (flags.map fun c => (['-', c], ([] : Str))), o.1 ∉ consumed_names := by
    intro o ho hmem
    obtain ⟨c, -, rfl⟩ := List.mem_map.mp ho
    simp [consumed_names] at hmem
  unfold run_main
  rw [hg]
  show Outcome.exec "az".toList
      (build_exec_args (az_path_str az_which)
        (processOpts (flags.map fun c => (['-', c], ([] : Str))) initState) dest []) = _
  rw [processOpts_forward_only _ _ hnc]
  by_cases hfe : flags = []
  · subst hfe
    rfl
  · dsimp only [build_exec_args, plan_head]
    simp only [initState, List.nil_append, build_ssh_shorts]
    simp [hfe, List.append_assoc]

/-- C3 witness: the single flag `-t` with destination `host1`. -/
theorem C3_witness :
    run_main (some "az".toList) (((['t'] : List Char).map fun c => ['-', c]) ++ ["host1".toList]) =
      .exec "az".toList
        (["\"az\"".toList, "ssh".toList, "--name".toList, "host1".toList]
          ++ (if (['t'] : List Char) = [] then []
              else "--".toList :: (['t'] : List Char).map fun c => ['-', c])) :=
  C3_amended (some "az".toList) ['t'] "host1".toList (by decide) (by decide)

/-- C4: the grammar string of `main` lists `f:` where the program's own help
text (usage lines `[-46AaCfGgKkMNnqsTtVvXxYy]` and `[-F configfile]`,
following OpenSSH 8.9p1) requires a no-value `-f` plus a value-bearing `-F`.
Consequently uppercase `F` is absent from the grammar: `short_has_arg` finds
no `F`, the input `["-F", "configfile", "host1"]` is a usage error with exit
status 2 instead of forwarding `-F`, while the remaining twenty value-bearing
flags of the claim are recognized and do consume one value. -/
theorem C4_flag_F_unrecognized :
    short_has_arg 'F' options = none ∧
    run_main (some "az".toList) ["-F".toList, "configfile".toList, "host1".toList] =
      .usage 2 ∧
    ("BbcDEeIiJLlmOopQRSWw".toList.all fun c => short_has_arg c options == some true) = true :=
  ⟨rfl, rfl, rfl⟩

/-- C5: whenever parsing fails (unknown flag, value-bearing flag missing its
value — the `GetoptError` cases) or succeeds with an empty positional list
(no destination — the `IndexError` from `args.pop(0)`), the program ends in
the usage-error outcome: help text printed to standard output and exit status
2, with no `InvocationPlan` executed.  The hypothesis states exactly that no
successful parse of `argv` has a non-empty positional list. -/
theorem C5_usage_error (az_which : Option Str) (argv : List Str)
    (h : ∀ opts args, getopt argv options long_options = .ok (opts, args) → args = []) :
    run_main az_which argv = .usage 2 := by
  unfold run_main
  cases hg : getopt argv options long_options with
  | error e => rfl
  | ok p =>
    obtain ⟨opts, args⟩ := p
    have ha := h opts args hg
    subst ha
    rfl

/-- C5 witness: the unrecognized flag `-Z` produces the usage outcome. -/
theorem C5_witness : run_main (some "az".toList) ["-Z".toList] = .usage 2 :=
  C5_usage_error (some "az".toList) ["-Z".toList] (fun _ _ h => Except.noConfusion h)

/-- C7 counterexample: the claim's final conjunct ("no empty-string token
ever appears anywhere in the final plan") fails: trailing positional
arguments are forwarded verbatim, so the valid input `["host1", ""]` puts the
empty token in the plan. -/
theorem C7_cex :
    run_main (some "az".toList) ["host1".toList, ([] : Str)] =
      .exec "az".toList
        ["\"az\"".toList, "ssh".toList, "--name".toList, "host1".toList,
          "--".toList, ([] : Str)] ∧
    ([] : Str) ∈
      ["\"az\"".toList, "ssh".toList, "--name".toList, "host1".toList,
        "--".toList, ([] : Str)] :=
  ⟨rfl, by decide⟩

/-- C7 amended: flattening itself never emits an empty token — every token of
`build_ssh_opts` is non-empty — and each surviving forwarded option with a
non-empty name contributes exactly one token when it has no value and exactly
two tokens (name then value) when its value is non-empty; empty tokens can
enter the plan only as the verbatim destination or trailing positional
arguments. -/
theorem C7_amended (filtered_opts : List (Str × Str)) :
    (∀ t ∈ build_ssh_opts filtered_opts, t ≠ []) ∧
    (∀ o a : Str, o ≠ [] →
      (a = [] → flattenOpt (o, a) = [o]) ∧ (a ≠ [] → flattenOpt (o, a) = [o, a])) := by
  constructor
  · intro t ht
    unfold build_ssh_opts at ht
    rw [List.mem_flatMap] at ht
    obtain ⟨opt, -, hmem⟩ := ht
    unfold flattenOpt at hmem
    split_ifs at hmem <;> simp_all
    rcases hmem with rfl | rfl <;> assumption
  · intro o a ho
    constructor
    · intro ha
      subst ha
      simp [flattenOpt, ho]
    · intro ha
      simp [flattenOpt, ho, ha]

/-- C7 witness: a no-value flag flattens to one token, a valued flag to two. -/
theorem C7_witness :
    flattenOpt ("-t".toList, ([] : Str)) = ["-t".toList] ∧
    flattenOpt ("-o".toList, "v".toList) = ["-o".toList, "v".toList] :=
  ⟨((C7_amended []).2 "-t".toList [] (by decide)).1 rfl,
   ((C7_amended []).2 "-o".toList "v".toList (by decide)).2 (by decide)⟩

/-- C6: without `--arc` among the parsed options, removing (equivalently,
having added) any of the three mode-dependent extension options leaves the
assembled `exec_args` unchanged — the loop consumes them into state variables
that the assembly step reads only in Azure Arc mode, and assembly itself is
total, so they are silently ignored and never an error. -/
theorem C6_ext_ignored_without_arc (az_path : Str) (opts : List (Str × Str))
    (dest : Str) (args : List Str) (h : "--arc".toList ∉ opts.map Prod.fst) :
    build_exec_args az_path
        (processOpts (opts.filter fun o => decide (o.1 ∉ ext_value_names)) initState) dest args =
      build_exec_args az_path (processOpts opts initState) dest args := by
  have hsub : ∀ x ∈ ext_value_names, x ∈ consumed_names := by decide
  have h' : "--arc".toList ∉ (opts.filter fun o => decide (o.1 ∉ ext_value_names)).map Prod.fst := by
    intro hm
    obtain ⟨o, ho, heq⟩ := List.mem_map.mp hm
    exact h (List.mem_map.mpr ⟨o, List.mem_of_mem_filter ho, heq⟩)
  have harc1 :
      (processOpts (opts.filter fun o => decide (o.1 ∉ ext_value_names)) initState).arc_mode =
        false := by
    rw [processOpts_arc, any_arc_false _ h']
    rfl
  have harc2 : (processOpts opts initState).arc_mode = false := by
    rw [processOpts_arc, any_arc_false _ h]
    rfl
  have hfe : forwarded_opts (opts.filter fun o => decide (o.1 ∉ ext_value_names)) =
      forwarded_opts opts := by
    unfold forwarded_opts
    rw [List.filter_filter]
    apply List.filter_congr
    intro o _
    by_cases hc : o.1 ∈ consumed_names
    · have d1 : decide (o.1 ∉ consumed_names) = false := decide_eq_false (not_not_intro hc)
      simp [d1]
    · have d1 : decide (o.1 ∉ consumed_names) = true := decide_eq_true hc
      have d2 : decide (o.1 ∉ ext_value_names) = true :=
        decide_eq_true fun hx => hc (hsub _ hx)
      simp [d1, d2]
  dsimp only [build_exec_args, plan_head]
  rw [processOpts_filtered (opts.filter fun o => decide (o.1 ∉ ext_value_names)) initState,
    processOpts_filtered opts initState, hfe, harc1, harc2]
  simp

/-- C6 witness: a `--subscription` option supplied without `--arc` leaves the
plan unchanged. -/
theorem C6_witness :
    build_exec_args "\"az\"".toList
        (processOpts
          (([("--subscription".toList, "s1".toList), ("-v".toList, ([] : Str))] :
              List (Str × Str)).filter fun o => decide (o.1 ∉ ext_value_names))
          initState)
        "host1".toList [] =
      build_exec_args "\"az\"".toList
        (processOpts [("--subscription".toList, "s1".toList), ("-v".toList, ([] : Str))]
          initState)
        "host1".toList [] :=
  C6_ext_ignored_without_arc "\"az\"".toList
    [("--subscription".toList, "s1".toList), ("-v".toList, ([] : Str))]
    "host1".toList [] (by decide)

/-- C8: for a successfully parsed vector, (a) the surviving forwarded options
are an order-preserving subsequence (`Sublist`) of the parsed option list,
which `getopt` builds in input order; (b) the program execs the assembled
plan; (c) the trailing positional arguments are a verbatim suffix of the
plan; and (d) the plan is the head followed, when anything survives, by the
separator, the flattened survivors in order, then the trailing positionals in
order. -/
theorem C8_order_preserved (az_which : Option Str) (argv : List Str)
    (opts : List (Str × Str)) (dest : Str) (rest : List Str)
    (hp : getopt argv options long_options = .ok (opts, dest :: rest)) :
    ((processOpts opts initState).filtered_opts.filter opt_filter).Sublist opts ∧
    run_main az_which argv =
      .exec "az".toList
        (build_exec_args (az_path_str az_which) (processOpts opts initState) dest rest) ∧
    rest.IsSuffix (build_exec_args (az_path_str az_which) (processOpts opts initState) dest rest) ∧
    build_exec_args (az_path_str az_which) (processOpts opts initState) dest rest =
      plan_head (az_path_str az_which) (processOpts opts initState) dest
        ++ (if build_ssh_opts (processOpts opts initState).filtered_opts ≠ [] ∨ rest ≠ [] then
              "--".toList :: (build_ssh_opts (processOpts opts initState).filtered_opts ++ rest)
            else []) := by
  refine ⟨?_, ?_, ?_, rfl⟩
  · rw [processOpts_filtered]
    dsimp only [initState, List.nil_append]
    unfold forwarded_opts
    exact (List.filter_sublist _).trans (List.filter_sublist _)
  · unfold run_main
    rw [hp]
  · by_cases hr : rest = []
    · subst hr
      exact List.nil_suffix
    · dsimp only [build_exec_args]
      rw [if_pos (Or.inr hr)]
      exact ⟨plan_head (az_path_str az_which) (processOpts opts initState) dest
          ++ ("--".toList :: build_ssh_opts (processOpts opts initState).filtered_opts),
        by simp [List.append_assoc]⟩

/-- C8 witness: `-t host1 ls -la` keeps the forwarded `-t` and the trailing
`ls -la` in input order. -/
theorem C8_witness :
    (((processOpts [("-t".toList, ([] : Str))] initState).filtered_opts.filter
        opt_filter).Sublist [("-t".toList, ([] : Str))]) ∧
    run_main (some "az".toList) ["-t".toList, "host1".toList, "ls".toList, "-la".toList] =
      .exec "az".toList
        (build_exec_args (az_path_str (some "az".toList))
          (processOpts [("-t".toList, ([] : Str))] initState) "host1".toList
          ["ls".toList, "-la".toList]) ∧
    (["ls".toList, "-la".toList] : List Str).IsSuffix
      (build_exec_args (az_path_str (some "az".toList))
        (processOpts [("-t".toList, ([] : Str))] initState) "host1".toList
        ["ls".toList, "-la".toList]) ∧
    build_exec_args (az_path_str (some "az".toList))
        (processOpts [("-t".toList, ([] : Str))] initState) "host1".toList
        ["ls".toList, "-la".toList] =
      plan_head (az_path_str (some "az".toList))
          (processOpts [("-t".toList, ([] : Str))] initState) "host1".toList
        ++ (if build_ssh_opts (processOpts [("-t".toList, ([] : Str))] initState).filtered_opts
                ≠ [] ∨ (["ls".toList, "-la".toList] : List Str) ≠ [] then
              "--".toList ::
                (build_ssh_opts
                    (processOpts [("-t".toList, ([] : Str))] initState).filtered_opts
                  ++ ["ls".toList, "-la".toList])
            else []) :=
  C8_order_preserved (some "az".toList)
    ["-t".toList, "host1".toList, "ls".toList, "-la".toList]
    [("-t".toList, ([] : Str))] "host1".toList ["ls".toList, "-la".toList] rfl

/-- C9 counterexample: `--subscription` supplied (with an empty value) in Arc
mode does not put a `--subscription` name/value pair in the plan, because the
assembly step emits a pair only when the stored value is truthy — the claim's
"for each supplied extension option" fails. -/
theorem C9_cex :
    run_main (some "az".toList)
        ["--arc".toList, "--subscription".toList, ([] : Str), "server1".toList] =
      .exec "az".toList
        ["\"az\"".toList, "ssh".toList, "arc".toList, "--name".toList, "server1".toList] ∧
    "--subscription".toList ∉
      ["\"az\"".toList, "ssh".toList, "arc".toList, "--name".toList, "server1".toList] :=
  ⟨rfl, by decide⟩

/-- C9 amended: in Azure Arc mode the plan tokens after the subcommand begin
with `arc`, followed by the name/value pair of each extension option whose
last supplied value is non-empty (in the fixed order subscription,
resource-group, local-user), then `--name` with the destination, then the
separator block; each state variable holds the last value supplied for its
option. -/
theorem C9_arc_plan (az_which : Option Str) (argv : List Str)
    (opts : List (Str × Str)) (dest : Str) (rest : List Str)
    (hp : getopt argv options long_options = .ok (opts, dest :: rest))
    (harc : (processOpts opts initState).arc_mode = true) :
    run_main az_which argv =
      .exec "az".toList
        (([az_path_str az_which, "ssh".toList, "arc".toList]
            ++ (if pyTruthy (processOpts opts initState).subscription then
                  ["--subscription".toList, (processOpts opts initState).subscription.getD []]
                else [])
            ++ (if pyTruthy (processOpts opts initState).resource_group then
                  ["--resource-group".toList, (processOpts opts initState).resource_group.getD []]
                else [])
            ++ (if pyTruthy (processOpts opts initState).local_user then
                  ["--local-user".toList, (processOpts opts initState).local_user.getD []]
                else [])
            ++ ["--name".toList, dest])
          ++ (if build_ssh_opts (processOpts opts initState).filtered_opts ≠ [] ∨ rest ≠ [] then
                "--".toList :: (build_ssh_opts (processOpts opts initState).filtered_opts ++ rest)
              else [])) ∧
    (processOpts opts initState).subscription = last_value "--subscription".toList opts ∧
    (processOpts opts initState).resource_group = last_value "--resource-group".toList opts ∧
    (processOpts opts initState).local_user = last_value "--local-user".toList opts := by
  refine ⟨?_, ?_, ?_, ?_⟩
  · unfold run_main
    rw [hp]
    dsimp only [build_exec_args, plan_head]
    rw [harc, if_pos rfl]
    simp [List.append_assoc]
  · rw [processOpts_subscription]
    exact opt_or_none _
  · rw [processOpts_resource_group]
    exact opt_or_none _
  · rw [processOpts_local_user]
    exact opt_or_none _

/-- C9 witness: end-to-end example 3 of the specification. -/
theorem C9_witness :
    run_main (some "az".toList)
        ["--arc".toList, "--subscription".toList, "sub1".toList, "--resource-group".toList,
          "rg1".toList, "--local-user".toList, "admin".toList, "server1".toList] =
      .exec "az".toList
        ["\"az\"".toList, "ssh".toList, "arc".toList, "--subscription".toList, "sub1".toList,
          "--resource-group".toList, "rg1".toList, "--local-user".toList, "admin".toList,
          "--name".toList, "server1".toList] :=
  (C9_arc_plan (some "az".toList)
    ["--arc".toList, "--subscription".toList, "sub1".toList, "--resource-group".toList,
      "rg1".toList, "--local-user".toList, "admin".toList, "server1".toList]
    [("--arc".toList, ([] : Str)), ("--subscription".toList, "sub1".toList),
      ("--resource-group".toList, "rg1".toList), ("--local-user".toList, "admin".toList)]
    "server1".toList [] rfl rfl).1

/-- C10: option recognition stops at the first token that does not look like
an option (it does not start with `-`, or is the bare `-`): that token
becomes the destination and every later token is a trailing positional
argument, forwarded verbatim after the separator — bypassing both the strict
grammar check and the Control-prefix filter, whatever `post` contains. -/
theorem C10_stop_at_first_positional (az_which : Option Str) (t : Str) (post : List Str)
    (h : ¬ pyStartsWith t ['-'] = true ∨ t = ['-']) :
    getopt (t :: post) options long_options = .ok ([], t :: post) ∧
    run_main az_which (t :: post) =
      .exec "az".toList
        ([az_path_str az_which, "ssh".toList, "--name".toList, t]
          ++ (if post = [] then [] else "--".toList :: post)) := by
  have hg : getopt (t :: post) options long_options = .ok ([], t :: post) := by
    show getopt_go options long_options [] (t :: post) = .ok ([], t :: post)
    simp only [getopt_go]
    rw [if_pos h]
  refine ⟨hg, ?_⟩
  unfold run_main
  rw [hg]
  cases post with
  | nil => rfl
  | cons p ps => rfl

/-- C10 witness: after the destination `host1`, the tokens `-o` and
`ControlMaster=auto` are forwarded verbatim, unfiltered. -/
theorem C10_witness :
    getopt ("host1".toList :: ["-o".toList, "ControlMaster=auto".toList]) options long_options =
      .ok ([], "host1".toList :: ["-o".toList, "ControlMaster=auto".toList]) ∧
    run_main (some "az".toList) ("host1".toList :: ["-o".toList, "ControlMaster=auto".toList]) =
      .exec "az".toList
        (["\"az\"".toList, "ssh".toList, "--name".toList, "host1".toList]
          ++ (if (["-o".toList, "ControlMaster=auto".toList] : List Str) = [] then []
              else "--".toList :: ["-o".toList, "ControlMaster=auto".toList])) :=
  C10_stop_at_first_positional (some "az".toList) "host1".toList
    ["-o".toList, "ControlMaster=auto".toList] (by decide)

end AzWrap
